import Mathlib

/-! Shallow embedding of the HRMS payroll engine of this repository
(`excel_data/views/payroll.py` and `excel_data/models/employee.py`).

Conventions of the embedding:
* monetary and fractional quantities are exact rationals `ℚ`;
* wall-clock times are minutes since midnight (`ℕ`, valid when `< 1440`);
* calendar dates are absolute day numbers (`ℕ`), with
  `weekday d = d % 7`, Monday = 0 … Sunday = 6, matching Python's
  `date.weekday()`;
* database tables are lists of records, requests are function arguments,
  responses are return values. -/

namespace Payroll

/-- The fixed average-days-per-month constant `30.4` used by the source
for OT-rate derivation (`static_days` in `payroll.py` and
`EmployeeProfile.save`). -/
def staticDays : ℚ := 30.4

/-- Shift duration in hours between a start and an end wall-clock time
(minutes since midnight).  When the end is at or before the start the
shift is treated as crossing midnight by adding one day to the end,
exactly as `EmployeeProfile._calculate_shift_hours` and the inline copy
in `calculate_simple_payroll` (lines 2158–2166) do. -/
def shiftDurationHours (s e : ℕ) : ℚ :=
  if e ≤ s then ((e : ℚ) + 1440 - s) / 60 else ((e : ℚ) - s) / 60

/-- Shift hours used inside `calculate_simple_payroll`: falls back to an
8-hour shift when either shift time is missing (lines 2159–2169). -/
def shiftHoursOrDefault (s e : Option ℕ) : ℚ :=
  match s, e with
  | some s, some e => shiftDurationHours s e
  | _, _ => 8

/-- OT rate per hour: `basic_salary / (shift_hours * 30.4)` guarded by
positive shift hours and positive salary, else `0`
(`calculate_simple_payroll` lines 2171–2176). -/
def otRate (shiftHours basicSalary : ℚ) : ℚ :=
  if 0 < shiftHours ∧ 0 < basicSalary then basicSalary / (shiftHours * staticDays) else 0

/-- Per-employee inputs of the row computation of
`calculate_simple_payroll` (lines 2141–2194).  `working_days` is the
already-resolved working-day count, `advance_deduction` the aggregated
PENDING/PARTIALLY_PAID balance tagged for the month. -/
structure EmpInput where
  basic_salary : ℚ
  tds_percentage : ℚ
  shift_start_time : Option ℕ
  shift_end_time : Option ℕ
  working_days : ℕ
  present_days : ℚ
  ot_hours : ℚ
  late_minutes : ℚ
  advance_deduction : ℚ
  deriving DecidableEq, Repr

/-- The monetary outputs of one payroll row. -/
structure PayrollRow where
  salary_for_present_days : ℚ
  ot_charges : ℚ
  late_deduction : ℚ
  gross_salary : ℚ
  tds_amount : ℚ
  salary_after_tds : ℚ
  net_salary : ℚ
  deriving DecidableEq, Repr

/-- The per-employee body of `calculate_simple_payroll`
(payroll.py lines 2148–2194), in exact arithmetic. -/
def calcSimplePayrollRow (e : EmpInput) : PayrollRow :=
  let salary_for_present_days : ℚ :=
    if 0 < e.working_days then e.basic_salary / (e.working_days : ℚ) * e.present_days else 0
  let rate := otRate (shiftHoursOrDefault e.shift_start_time e.shift_end_time) e.basic_salary
  let ot_charges := e.ot_hours * rate
  let late_charge_per_minute := if 0 < rate then rate / 60 else 0
  let late_deduction := e.late_minutes * late_charge_per_minute
  let gross := salary_for_present_days + ot_charges - late_deduction
  let tds := gross * e.tds_percentage / 100
  let after := gross - tds
  { salary_for_present_days := salary_for_present_days
    ot_charges := ot_charges
    late_deduction := late_deduction
    gross_salary := gross
    tds_amount := tds
    salary_after_tds := after
    net_salary := after - e.advance_deduction }

/-- Per-row inputs of `calculate_simple_payroll_ultra_fast`: the SQL
query already delivers `ot_charges = ot_hours * ot_rate` and
`late_deduction = late_minutes * ot_rate / 60` (lines 2676–2677). -/
structure UltraInput where
  base_salary : ℚ
  raw_present_days : ℚ
  holiday_count : ℚ
  ot_charges : ℚ
  late_deduction : ℚ
  tds_percentage : ℚ
  total_advance_balance : ℚ
  deriving DecidableEq, Repr

/-- Outputs of the capped ("smart") variant. -/
structure UltraRow where
  gross_salary : ℚ
  tds_amount : ℚ
  salary_after_tds : ℚ
  advance_deduction : ℚ
  net_salary : ℚ
  remaining_advance : ℚ
  deriving DecidableEq, Repr

/-- Post-processing of one row in `calculate_simple_payroll_ultra_fast`
(payroll.py lines 2740–2760): gross from a `30.4` daily rate over
`paid_days = raw_present_days + holiday_count`, then TDS, then the
capped advance deduction and clamped net pay. -/
def calcUltraFastRow (i : UltraInput) : UltraRow :=
  let paid_days := i.raw_present_days + i.holiday_count
  let daily_rate := i.base_salary / staticDays
  let gross := daily_rate * paid_days + i.ot_charges - i.late_deduction
  let tds := gross * i.tds_percentage / 100
  let after := gross - tds
  let max_deductible := max 0 after
  let actual := min i.total_advance_balance max_deductible
  { gross_salary := gross
    tds_amount := tds
    salary_after_tds := after
    advance_deduction := actual
    net_salary := max 0 (after - actual)
    remaining_advance := i.total_advance_balance - actual }

/-- One employee profile, restricted to the fields that
`EmployeeProfile.save` reads for the automatic OT-rate derivation. -/
structure EmployeeProfile where
  shift_start_time : Option ℕ
  shift_end_time : Option ℕ
  basic_salary : ℚ
  ot_charge_per_hour : Option ℚ
  deriving DecidableEq, Repr

/-- `EmployeeProfile._calculate_shift_hours`: `0` when either time is
missing, otherwise the overnight-aware duration. -/
def calculateShiftHours (p : EmployeeProfile) : ℚ :=
  match p.shift_start_time, p.shift_end_time with
  | some s, some e => shiftDurationHours s e
  | _, _ => 0

/-- Python truthiness of the stored OT-rate field as used by the guard
`not self.ot_charge_per_hour` in `EmployeeProfile.save`: falsy exactly
when the field is NULL or holds the value `0`. -/
def otChargeFalsy : Option ℚ → Bool
  | none => true
  | some q => decide (q = 0)

/-- The OT-rate branch of `EmployeeProfile.save`
(employee.py lines 152–163): when the stored rate is falsy, both shift
times are set and `basic_salary` is truthy, and the shift duration is
positive, the rate becomes `basic_salary / (shift_hours * 30.4)`;
otherwise the profile is saved unchanged. -/
def employeeSave (p : EmployeeProfile) : EmployeeProfile :=
  if otChargeFalsy p.ot_charge_per_hour ∧ p.shift_start_time.isSome
      ∧ p.shift_end_time.isSome ∧ p.basic_salary ≠ 0 then
    if 0 < calculateShiftHours p then
      { p with
        ot_charge_per_hour := some (p.basic_salary / (calculateShiftHours p * staticDays)) }
    else p
  else p

/-- The OT rate is never negative (the guard returns `0` unless both the
shift hours and the salary are positive). -/
lemma otRate_nonneg (sh bs : ℚ) : 0 ≤ otRate sh bs := by
  unfold otRate
  split
  · rename_i h
    have hpos : 0 < sh * staticDays := by
      have : (0 : ℚ) < staticDays := by norm_num [staticDays]
      exact mul_pos h.1 this
    exact le_of_lt (div_pos h.2 hpos)
  · exact le_refl 0

end Payroll

namespace Payroll

/-- C1: for every employee processed by `calculate_simple_payroll`,
`gross_salary = salary_for_present_days + ot_charges - late_deduction`,
with `salary_for_present_days = (basic_salary / working_days) *
present_days` when `working_days > 0` and `0` otherwise,
`ot_charges = ot_hours * ot_rate`, and
`late_deduction = late_minutes * (ot_rate / 60)`. -/
theorem gross_salary_decomposition (e : EmpInput) :
    (calcSimplePayrollRow e).gross_salary
        = (calcSimplePayrollRow e).salary_for_present_days
          + (calcSimplePayrollRow e).ot_charges
          - (calcSimplePayrollRow e).late_deduction
    ∧ (calcSimplePayrollRow e).salary_for_present_days
        = (if 0 < e.working_days then
            e.basic_salary / (e.working_days : ℚ) * e.present_days else 0)
    ∧ (calcSimplePayrollRow e).ot_charges
        = e.ot_hours
          * otRate (shiftHoursOrDefault e.shift_start_time e.shift_end_time) e.basic_salary
    ∧ (calcSimplePayrollRow e).late_deduction
        = e.late_minutes
          * (otRate (shiftHoursOrDefault e.shift_start_time e.shift_end_time) e.basic_salary
              / 60) := by
  refine ⟨rfl, rfl, rfl, ?_⟩
  show e.late_minutes
      * (if 0 < otRate (shiftHoursOrDefault e.shift_start_time e.shift_end_time) e.basic_salary
          then otRate (shiftHoursOrDefault e.shift_start_time e.shift_end_time) e.basic_salary / 60
          else 0) = _
  set r := otRate (shiftHoursOrDefault e.shift_start_time e.shift_end_time) e.basic_salary with hr
  by_cases h : 0 < r
  · simp [h]
  · have h0 : r = 0 := le_antisymm (not_lt.mp h) (hr ▸ otRate_nonneg _ _)
    simp [h, h0]

/-- C2: in the capped ("smart") variant
`calculate_simple_payroll_ultra_fast`, the advance deduction actually
applied is `min(total outstanding balance, max(0, salary_after_tds))`,
`net_payable = max(0, salary_after_tds - advance_deduction)`, and the
net pay is never negative. -/
theorem capped_advance_deduction (i : UltraInput) :
    (calcUltraFastRow i).advance_deduction
        = min i.total_advance_balance (max 0 (calcUltraFastRow i).salary_after_tds)
    ∧ (calcUltraFastRow i).net_salary
        = max 0 ((calcUltraFastRow i).salary_after_tds - (calcUltraFastRow i).advance_deduction)
    ∧ 0 ≤ (calcUltraFastRow i).net_salary :=
  ⟨rfl, rfl, le_max_left 0 _⟩

/-- C7: the computed shift duration is positive for every valid pair of
wall-clock times; when the end is at or before the start the shift
crosses midnight (24 h are added to the end), and a 22:00–06:00 shift
yields exactly 8 hours. -/
theorem shift_duration_positive :
    (∀ s e : ℕ, s < 1440 → 0 < shiftDurationHours s e)
    ∧ (∀ s e : ℕ, e ≤ s → shiftDurationHours s e = ((e : ℚ) + 1440 - s) / 60)
    ∧ shiftDurationHours 1320 360 = 8 := by
  refine ⟨?_, ?_, by norm_num [shiftDurationHours]⟩
  · intro s e hs
    unfold shiftDurationHours
    split
    · rename_i h
      have hs' : (s : ℚ) < 1440 := by exact_mod_cast hs
      have : (0 : ℚ) < (e : ℚ) + 1440 - s := by
        have he : (0 : ℚ) ≤ (e : ℚ) := by positivity
        linarith
      positivity
    · rename_i h
      have h' : s < e := Nat.lt_of_not_le h
      have h'' : (s : ℚ) < e := by exact_mod_cast h'
      have : (0 : ℚ) < (e : ℚ) - s := by linarith
      positivity
  · intro s e h
    simp [shiftDurationHours, h]

/-- Witness for C7 at the overnight shift 22:00–06:00 (1320 and 360
minutes since midnight). -/
theorem shift_duration_positive_witness :
    (1320 : ℕ) < 1440 ∧ 0 < shiftDurationHours 1320 360 :=
  ⟨by norm_num, shift_duration_positive.1 1320 360 (by norm_num)⟩

/-- Concrete profile refuting C6 as stated: the stored OT rate holds the
non-blank value `0`. -/
def otExampleProfile : EmployeeProfile :=
  { shift_start_time := some 540   -- 09:00
    shift_end_time := some 1020    -- 17:00
    basic_salary := 3040
    ot_charge_per_hour := some 0 }

/-- C6 counterexample: a profile whose `ot_charge_per_hour` holds the
non-blank value `0` is NOT left unchanged by `EmployeeProfile.save`; the
Python guard `not self.ot_charge_per_hour` treats `0` as blank and
recomputes the rate (here to `3040 / (8 * 30.4) = 12.5`). -/
theorem ot_rate_zero_overwritten :
    otExampleProfile.ot_charge_per_hour = some 0
    ∧ otExampleProfile.ot_charge_per_hour ≠ none
    ∧ (employeeSave otExampleProfile).ot_charge_per_hour = some (25 / 2)
    ∧ (employeeSave otExampleProfile).ot_charge_per_hour
        ≠ otExampleProfile.ot_charge_per_hour := by
  have hcond : otChargeFalsy otExampleProfile.ot_charge_per_hour
      ∧ otExampleProfile.shift_start_time.isSome
      ∧ otExampleProfile.shift_end_time.isSome
      ∧ otExampleProfile.basic_salary ≠ 0 := by
    refine ⟨rfl, rfl, rfl, by norm_num [otExampleProfile]⟩
  have hsh : calculateShiftHours otExampleProfile = 8 := by
    norm_num [calculateShiftHours, otExampleProfile, shiftDurationHours]
  have hsave : (employeeSave otExampleProfile).ot_charge_per_hour = some (25 / 2) := by
    unfold employeeSave
    rw [if_pos hcond, if_pos (by rw [hsh]; norm_num), hsh]
    norm_num [otExampleProfile, staticDays]
  refine ⟨rfl, by simp [otExampleProfile], hsave, ?_⟩
  rw [hsave]
  simp only [otExampleProfile, ne_eq, Option.some.injEq]
  norm_num

/-- C6 amended: on save with both shift times set and a positive basic
salary, a NULL or zero `ot_charge_per_hour` is set to
`basic_salary / (shift_hours_per_day * 30.4)` (overnight-aware
duration), while any non-null, non-zero stored value is left
unchanged. -/
theorem ot_rate_save_policy (p : EmployeeProfile) :
    (∀ s e : ℕ,
        (p.ot_charge_per_hour = none ∨ p.ot_charge_per_hour = some 0) →
        p.shift_start_time = some s → p.shift_end_time = some e → s < 1440 →
        0 < p.basic_salary →
        (employeeSave p).ot_charge_per_hour
          = some (p.basic_salary / (shiftDurationHours s e * staticDays)))
    ∧ (∀ q : ℚ, p.ot_charge_per_hour = some q → q ≠ 0 →
        (employeeSave p).ot_charge_per_hour = some q) := by
  constructor
  · intro s e hblank hs he hlt hpos
    have hfalsy : otChargeFalsy p.ot_charge_per_hour = true := by
      rcases hblank with h | h <;> simp [h, otChargeFalsy]
    have hsh : calculateShiftHours p = shiftDurationHours s e := by
      simp [calculateShiftHours, hs, he]
    have hshpos : 0 < calculateShiftHours p := by
      rw [hsh]; exact shift_duration_positive.1 s e hlt
    unfold employeeSave
    rw [if_pos ⟨hfalsy, by simp [hs], by simp [he], ne_of_gt hpos⟩, if_pos hshpos, hsh]
  · intro q hq hq0
    have hfalsy : ¬ (otChargeFalsy p.ot_charge_per_hour ∧ p.shift_start_time.isSome
        ∧ p.shift_end_time.isSome ∧ p.basic_salary ≠ 0) := by
      intro hc
      have := hc.1
      rw [hq] at this
      simp [otChargeFalsy] at this
      exact hq0 this
    unfold employeeSave
    rw [if_neg hfalsy, hq]

/-- Witness for the amended C6 at a concrete profile with a NULL stored
rate, 09:00–17:00 shift and salary 3040: the saved rate is
`3040 / (8 * 30.4) = 12.5`. -/
theorem ot_rate_save_policy_witness :
    (employeeSave
        { shift_start_time := some 540, shift_end_time := some 1020,
          basic_salary := 3040, ot_charge_per_hour := none }).ot_charge_per_hour
      = some (3040 / (shiftDurationHours 540 1020 * staticDays)) :=
  (ot_rate_save_policy _).1 540 1020 (Or.inl rfl) rfl rfl (by norm_num) (by norm_num)

end Payroll

namespace Payroll

/-- Calendar-relevant employee fields for the working-days computation
(`calculate_simple_payroll_ultra_fast`, lines 2497–2552). -/
structure EmpCalendar where
  date_of_joining : Option ℕ
  off_monday : Bool
  off_tuesday : Bool
  off_wednesday : Bool
  off_thursday : Bool
  off_friday : Bool
  off_saturday : Bool
  off_sunday : Bool
  deriving DecidableEq, Repr

/-- The `off_day_map` lookup: weekday index (Monday = 0) to the
employee's off flag. -/
def offFlag (emp : EmpCalendar) (w : ℕ) : Bool :=
  match w with
  | 0 => emp.off_monday
  | 1 => emp.off_tuesday
  | 2 => emp.off_wednesday
  | 3 => emp.off_thursday
  | 4 => emp.off_friday
  | 5 => emp.off_saturday
  | _ => emp.off_sunday

/-- The date-of-joining guard: a date is skipped when it lies strictly
before the joining date (`if doj and day_date < doj: continue`). -/
def onOrAfterDoj (emp : EmpCalendar) (d : ℕ) : Bool :=
  match emp.date_of_joining with
  | none => true
  | some j => decide (j ≤ d)

/-- All dates of the month as absolute day numbers
(`month_dates = [first_day + timedelta(days=i) for i in range(total_days)]`). -/
def monthDates (firstDay totalDays : ℕ) : List ℕ :=
  (List.range totalDays).map (firstDay + ·)

/-- Calendar working days of the month for one employee: dates on or
after the date of joining whose weekday is not flagged off (the
per-employee loop of lines 2536–2549). -/
def computedWorkingDays (emp : EmpCalendar) (firstDay totalDays : ℕ) : ℕ :=
  ((monthDates firstDay totalDays).filter
    (fun d => onOrAfterDoj emp d && !offFlag emp (d % 7))).length

/-- The value stored in `employee_working_days_map`:
`working_days if working_days > 0 else 30` (line 2551). -/
def workingDaysMapValue (emp : EmpCalendar) (firstDay totalDays : ℕ) : ℕ :=
  if 0 < computedWorkingDays emp firstDay totalDays then
    computedWorkingDays emp firstDay totalDays
  else 30

/-- The working-days resolver of the payroll calculation (lines
2728–2733): an uploaded working-days count `> 0` is used verbatim,
otherwise the calendar-computed value with its 30-day fallback. -/
def resolveWorkingDays (uploaded : ℕ) (emp : EmpCalendar) (firstDay totalDays : ℕ) : ℕ :=
  if 0 < uploaded then uploaded else workingDaysMapValue emp firstDay totalDays

end Payroll

namespace Payroll

/-- C5: the working-days resolver uses an uploaded count `> 0` verbatim;
otherwise it uses the number of month dates on or after the date of
joining whose weekday is not flagged off; a computed count of `0` falls
back to `30`; and the resolved value is always positive. -/
theorem working_days_resolution (uploaded : ℕ) (emp : EmpCalendar)
    (firstDay totalDays : ℕ) :
    (0 < uploaded → resolveWorkingDays uploaded emp firstDay totalDays = uploaded)
    ∧ (uploaded = 0 → 0 < computedWorkingDays emp firstDay totalDays →
        resolveWorkingDays uploaded emp firstDay totalDays
          = computedWorkingDays emp firstDay totalDays)
    ∧ (uploaded = 0 → computedWorkingDays emp firstDay totalDays = 0 →
        resolveWorkingDays uploaded emp firstDay totalDays = 30)
    ∧ 0 < resolveWorkingDays uploaded emp firstDay totalDays := by
  refine ⟨?_, ?_, ?_, ?_⟩
  · intro h
    simp [resolveWorkingDays, h]
  · intro h0 hc
    simp [resolveWorkingDays, h0, workingDaysMapValue, hc]
  · intro h0 hc
    simp [resolveWorkingDays, h0, workingDaysMapValue, hc]
  · unfold resolveWorkingDays workingDaysMapValue
    split
    · assumption
    · split
      · assumption
      · norm_num

/-- Witness for C5: an uploaded count of 7 is used verbatim, and with no
uploaded count an employee who joined after the month's end resolves to
the 30-day fallback. -/
theorem working_days_resolution_witness :
    resolveWorkingDays 7
        { date_of_joining := none, off_monday := false, off_tuesday := false,
          off_wednesday := false, off_thursday := false, off_friday := false,
          off_saturday := false, off_sunday := true } 0 28 = 7
    ∧ resolveWorkingDays 0
        { date_of_joining := some 100, off_monday := false, off_tuesday := false,
          off_wednesday := false, off_thursday := false, off_friday := false,
          off_saturday := false, off_sunday := true } 0 28 = 30 :=
  ⟨(working_days_resolution 7 _ 0 28).1 (by norm_num),
   (working_days_resolution 0 _ 0 28).2.2.1 rfl (by decide)⟩

end Payroll

namespace Payroll

/-- Status of an advance-ledger entry.  `partPaid` stands for the
source's `'PARTIALLY_PAID'`, `pending` for `'PENDING'`, `repaid` for
`'REPAID'`. -/
inductive AdvanceStatus
  | pending
  | partPaid
  | repaid
  deriving DecidableEq, BEq, Repr

/-- An `AdvanceLedger` entry as read and written by the repayment walk
of `mark_salary_paid` (payroll.py lines 503–566). -/
structure Advance where
  advance_date : ℕ
  status : AdvanceStatus
  remaining_balance : ℚ
  deriving DecidableEq, Repr

/-- The query filter `status__in=['PENDING','PARTIALLY_PAID']`. -/
def isOutstanding (a : Advance) : Bool :=
  a.status == .pending || a.status == .partPaid

/-- Insertion step of sorting by `advance_date`. -/
def insertByDate (a : Advance) : List Advance → List Advance
  | [] => [a]
  | b :: rest =>
    if a.advance_date ≤ b.advance_date then a :: b :: rest else b :: insertByDate a rest

/-- The `order_by('advance_date')` of the query (oldest first). -/
def sortByDate : List Advance → List Advance
  | [] => []
  | a :: rest => insertByDate a (sortByDate rest)

/-- The repayment loop of `mark_salary_paid` (lines 535–553): walk the
entries, fully repaying an entry whose balance is at most the remaining
deduction (status `REPAID`, balance `0`), else partially repaying it
(status `PARTIALLY_PAID`, balance reduced by the remainder); a
non-positive remaining deduction leaves the rest untouched (the
`break`). -/
def consumeAdvances (rem : ℚ) : List Advance → List Advance
  | [] => []
  | a :: rest =>
    if rem ≤ 0 then a :: rest
    else if a.remaining_balance ≤ rem then
      { a with status := .repaid, remaining_balance := 0 }
        :: consumeAdvances (rem - a.remaining_balance) rest
    else
      { a with status := .partPaid, remaining_balance := a.remaining_balance - rem }
        :: consumeAdvances 0 rest

/-- The whole advance-deduction side effect of marking a salary paid:
filter the outstanding entries, order them by date, and run the
repayment walk with the salary's `advance_deduction_amount`. -/
def applyAdvanceDeduction (d : ℚ) (ledger : List Advance) : List Advance :=
  consumeAdvances d (sortByDate (ledger.filter isOutstanding))

/-- Spec-side settlement of a single entry against the deduction that
remains for it (§4.4 of the spec): untouched when nothing remains, fully
repaid when its balance is covered, otherwise partially repaid. -/
def fifoSpecEntry (rem : ℚ) (a : Advance) : Advance :=
  if rem ≤ 0 then a
  else if a.remaining_balance ≤ rem then
    { a with status := .repaid, remaining_balance := 0 }
  else
    { a with status := .partPaid, remaining_balance := a.remaining_balance - rem }

/-- Spec-side FIFO description: entry `i` of the date-ordered list is
settled against `d` minus the balances of all strictly earlier
entries. -/
def fifoSpec (d : ℚ) : List Advance → List Advance
  | [] => []
  | a :: rest => fifoSpecEntry d a :: fifoSpec (d - a.remaining_balance) rest

/-- Sum of the remaining balances of a ledger fragment. -/
def totalBalance (l : List Advance) : ℚ :=
  (l.map Advance.remaining_balance).sum

lemma totalBalance_nil : totalBalance [] = 0 := rfl

lemma totalBalance_cons (a : Advance) (l : List Advance) :
    totalBalance (a :: l) = a.remaining_balance + totalBalance l := by
  simp [totalBalance]

lemma totalBalance_nonneg {l : List Advance}
    (hb : ∀ a ∈ l, 0 ≤ a.remaining_balance) : 0 ≤ totalBalance l := by
  unfold totalBalance
  apply List.sum_nonneg
  intro x hx
  obtain ⟨a, ha, rfl⟩ := List.mem_map.mp hx
  exact hb a ha

lemma consumeAdvances_nonpos {rem : ℚ} (h : rem ≤ 0) (l : List Advance) :
    consumeAdvances rem l = l := by
  cases l with
  | nil => rfl
  | cons a rest => simp [consumeAdvances, h]

lemma fifoSpec_nonpos {rem : ℚ} (l : List Advance) (h : rem ≤ 0)
    (hb : ∀ a ∈ l, 0 ≤ a.remaining_balance) : fifoSpec rem l = l := by
  induction l generalizing rem with
  | nil => rfl
  | cons a rest ih =>
    have ha : 0 ≤ a.remaining_balance := hb a (List.mem_cons_self a rest)
    have hrest : ∀ x ∈ rest, 0 ≤ x.remaining_balance :=
      fun x hx => hb x (List.mem_cons_of_mem a hx)
    simp only [fifoSpec, fifoSpecEntry, if_pos h]
    rw [ih (by linarith) hrest]

lemma consumeAdvances_eq_fifoSpec {d : ℚ} {l : List Advance}
    (hb : ∀ a ∈ l, 0 ≤ a.remaining_balance) :
    consumeAdvances d l = fifoSpec d l := by
  induction l generalizing d with
  | nil => rfl
  | cons a rest ih =>
    have ha : 0 ≤ a.remaining_balance := hb a (List.mem_cons_self a rest)
    have hrest : ∀ x ∈ rest, 0 ≤ x.remaining_balance :=
      fun x hx => hb x (List.mem_cons_of_mem a hx)
    by_cases h0 : d ≤ 0
    · rw [consumeAdvances_nonpos h0, fifoSpec]
      rw [fifoSpec_nonpos rest (by linarith) hrest]
      simp [fifoSpecEntry, if_pos h0]
    · by_cases h1 : a.remaining_balance ≤ d
      · simp only [consumeAdvances, if_neg h0, if_pos h1, fifoSpec, fifoSpecEntry]
        rw [ih hrest]
      · simp only [consumeAdvances, if_neg h0, if_neg h1, fifoSpec, fifoSpecEntry]
        rw [consumeAdvances_nonpos (le_refl 0) rest,
          fifoSpec_nonpos rest (by linarith [lt_of_not_le h1]) hrest]

lemma consumeAdvances_nonneg {d : ℚ} {l : List Advance}
    (hb : ∀ a ∈ l, 0 ≤ a.remaining_balance) :
    ∀ a ∈ consumeAdvances d l, 0 ≤ a.remaining_balance := by
  induction l generalizing d with
  | nil => intro a ha; simp [consumeAdvances] at ha
  | cons a rest ih =>
    have ha : 0 ≤ a.remaining_balance := hb a (List.mem_cons_self a rest)
    have hrest : ∀ x ∈ rest, 0 ≤ x.remaining_balance :=
      fun x hx => hb x (List.mem_cons_of_mem a hx)
    intro x hx
    by_cases h0 : d ≤ 0
    · rw [consumeAdvances_nonpos h0] at hx
      exact hb x hx
    · by_cases h1 : a.remaining_balance ≤ d
      · simp only [consumeAdvances, if_neg h0, if_pos h1] at hx
        rcases List.mem_cons.mp hx with rfl | hx'
        · exact le_refl 0
        · exact ih hrest x hx'
      · simp only [consumeAdvances, if_neg h0, if_neg h1] at hx
        rcases List.mem_cons.mp hx with rfl | hx'
        · have : d < a.remaining_balance := lt_of_not_le h1
          simp only []
          linarith
        · rw [consumeAdvances_nonpos (le_refl 0)] at hx'
          exact hrest x hx'

lemma consumeAdvances_total {d : ℚ} {l : List Advance} (hd : 0 ≤ d)
    (hb : ∀ a ∈ l, 0 ≤ a.remaining_balance) :
    totalBalance (consumeAdvances d l) = max (totalBalance l - d) 0 := by
  induction l generalizing d with
  | nil =>
    simp [consumeAdvances, totalBalance_nil]
    linarith
  | cons a rest ih =>
    have ha : 0 ≤ a.remaining_balance := hb a (List.mem_cons_self a rest)
    have hrest : ∀ x ∈ rest, 0 ≤ x.remaining_balance :=
      fun x hx => hb x (List.mem_cons_of_mem a hx)
    by_cases h0 : d ≤ 0
    · have hd0 : d = 0 := le_antisymm h0 hd
      rw [consumeAdvances_nonpos h0, hd0, sub_zero]
      have : 0 ≤ totalBalance (a :: rest) := totalBalance_nonneg hb
      exact (max_eq_left this).symm
    · by_cases h1 : a.remaining_balance ≤ d
      · simp only [consumeAdvances, if_neg h0, if_pos h1]
        rw [totalBalance_cons, totalBalance_cons]
        rw [ih (by linarith) hrest]
        have : totalBalance rest - (d - a.remaining_balance)
            = a.remaining_balance + totalBalance rest - d := by ring
        rw [this]
        simp
      · simp only [consumeAdvances, if_neg h0, if_neg h1]
        rw [totalBalance_cons, consumeAdvances_nonpos (le_refl 0), totalBalance_cons]
        have hlt : d < a.remaining_balance := lt_of_not_le h1
        have htr : 0 ≤ totalBalance rest := totalBalance_nonneg hrest
        have : 0 ≤ a.remaining_balance + totalBalance rest - d := by linarith
        rw [max_eq_left this]
        ring

lemma mem_insertByDate {x a : Advance} {l : List Advance} :
    x ∈ insertByDate a l ↔ x = a ∨ x ∈ l := by
  induction l with
  | nil => simp [insertByDate]
  | cons b rest ih =>
    by_cases h : a.advance_date ≤ b.advance_date
    · simp [insertByDate, h]
    · simp only [insertByDate, if_neg h, List.mem_cons, ih]
      tauto

lemma insertByDate_pairwise {a : Advance} {l : List Advance}
    (h : l.Pairwise (fun x y => x.advance_date ≤ y.advance_date)) :
    (insertByDate a l).Pairwise (fun x y => x.advance_date ≤ y.advance_date) := by
  induction l with
  | nil => simp [insertByDate]
  | cons b rest ih =>
    by_cases hab : a.advance_date ≤ b.advance_date
    · simp only [insertByDate, if_pos hab]
      refine List.Pairwise.cons ?_ h
      intro x hx
      rcases List.mem_cons.mp hx with rfl | hx'
      · exact hab
      · exact le_trans hab ((List.pairwise_cons.mp h).1 x hx')
    · simp only [insertByDate, if_neg hab]
      have hb := List.pairwise_cons.mp h
      refine List.Pairwise.cons ?_ (ih hb.2)
      intro x hx
      rcases mem_insertByDate.mp hx with rfl | hx'
      · exact le_of_lt (lt_of_not_le hab)
      · exact hb.1 x hx'

lemma sortByDate_pairwise (l : List Advance) :
    (sortByDate l).Pairwise (fun x y => x.advance_date ≤ y.advance_date) := by
  induction l with
  | nil => simp [sortByDate]
  | cons a rest ih => exact insertByDate_pairwise ih

lemma insertByDate_perm (a : Advance) (l : List Advance) :
    List.Perm (insertByDate a l) (a :: l) := by
  induction l with
  | nil => exact List.Perm.refl _
  | cons b rest ih =>
    by_cases h : a.advance_date ≤ b.advance_date
    · simp [insertByDate, h]
    · simp only [insertByDate, if_neg h]
      exact List.Perm.trans (List.Perm.cons b ih) (List.Perm.swap a b rest)

lemma sortByDate_perm (l : List Advance) : List.Perm (sortByDate l) l := by
  induction l with
  | nil => exact List.Perm.refl _
  | cons a rest ih =>
    exact List.Perm.trans (insertByDate_perm a (sortByDate rest)) (List.Perm.cons a ih)

lemma totalBalance_perm {l l' : List Advance} (h : List.Perm l l') :
    totalBalance l = totalBalance l' :=
  (h.map Advance.remaining_balance).sum_eq

end Payroll

namespace Payroll

/-- C3: with a non-negative deduction and non-negative ledger balances,
the repayment walk consumes the outstanding (PENDING/PARTIALLY_PAID)
entries in ascending `advance_date` order: each entry is settled against
the deduction minus the balances of all older entries — fully covered
entries become `(REPAID, 0)`, a partially covered entry becomes
`PARTIALLY_PAID` with its balance reduced by the remainder, untouched
entries stay as they are; no balance ever becomes negative; and a
deduction in excess of the total outstanding balance is absorbed,
leaving a total of `max (total - d) 0`. -/
theorem advance_fifo_repayment (d : ℚ) (ledger : List Advance)
    (hd : 0 ≤ d) (hb : ∀ a ∈ ledger, 0 ≤ a.remaining_balance) :
    applyAdvanceDeduction d ledger
        = fifoSpec d (sortByDate (ledger.filter isOutstanding))
    ∧ (sortByDate (ledger.filter isOutstanding)).Pairwise
        (fun x y => x.advance_date ≤ y.advance_date)
    ∧ (∀ a ∈ applyAdvanceDeduction d ledger, 0 ≤ a.remaining_balance)
    ∧ totalBalance (applyAdvanceDeduction d ledger)
        = max (totalBalance (ledger.filter isOutstanding) - d) 0 := by
  have hbs : ∀ a ∈ sortByDate (ledger.filter isOutstanding), 0 ≤ a.remaining_balance := by
    intro a ha
    have hmem : a ∈ ledger.filter isOutstanding :=
      (sortByDate_perm (ledger.filter isOutstanding)).mem_iff.mp ha
    exact hb a (List.mem_of_mem_filter hmem)
  refine ⟨consumeAdvances_eq_fifoSpec hbs, sortByDate_pairwise _,
    consumeAdvances_nonneg hbs, ?_⟩
  unfold applyAdvanceDeduction
  rw [consumeAdvances_total hd hbs,
    totalBalance_perm (sortByDate_perm (ledger.filter isOutstanding))]

/-- The two-entry ledger of the claim's concrete example: entries dated
1 and 2 with balances 100 and 50. -/
def fifoExampleLedger : List Advance :=
  [{ advance_date := 1, status := .pending, remaining_balance := 100 },
   { advance_date := 2, status := .pending, remaining_balance := 50 }]

/-- Witness for C3: a deduction of 120 over balances 100 and 50 leaves
the older entry `(REPAID, 0)` and the newer `(PARTIALLY_PAID, 30)`. -/
theorem advance_fifo_repayment_witness :
    applyAdvanceDeduction 120 fifoExampleLedger
      = [{ advance_date := 1, status := .repaid, remaining_balance := 0 },
         { advance_date := 2, status := .partPaid, remaining_balance := 30 }] := by
  have h := (advance_fifo_repayment 120 fifoExampleLedger (by norm_num)
    (by intro a ha; fin_cases ha <;> norm_num [fifoExampleLedger])).1
  rw [h]
  norm_num [fifoExampleLedger, fifoSpec, fifoSpecEntry, sortByDate, insertByDate,
    isOutstanding]

end Payroll

namespace Payroll

/-- One element of the `payroll_entries` payload of
`save_payroll_period_direct` (payroll.py lines 2923–2943).  String
bookkeeping fields (employee_name, department, data_source) are
omitted; they carry no arithmetic. -/
structure SalaryEntry where
  employee_id : ℕ
  base_salary : ℚ
  working_days : ℚ
  present_days : ℚ
  absent_days : ℚ
  ot_hours : ℚ
  late_minutes : ℚ
  gross_salary : ℚ
  ot_charges : ℚ
  late_deduction : ℚ
  tds_amount : ℚ
  total_advance_balance : ℚ
  advance_deduction : ℚ
  remaining_balance : ℚ
  net_salary : ℚ
  tds_percentage : ℚ
  is_paid : Bool
  deriving DecidableEq, Repr

/-- A `CalculatedSalary` row (the numeric fields written by
`save_payroll_period_direct`; the constant-zero helper rates and the
string fields are omitted).  `payment_date` is carried because the
direct save never touches it. -/
structure CalculatedSalary where
  period_id : ℕ
  employee_id : ℕ
  basic_salary : ℚ
  employee_tds_rate : ℚ
  total_working_days : ℚ
  present_days : ℚ
  absent_days : ℚ
  ot_hours : ℚ
  late_minutes : ℚ
  salary_for_present_days : ℚ
  ot_charges : ℚ
  late_deduction : ℚ
  gross_salary : ℚ
  tds_amount : ℚ
  salary_after_tds : ℚ
  total_advance_balance : ℚ
  advance_deduction_amount : ℚ
  remaining_advance_balance : ℚ
  net_payable : ℚ
  is_paid : Bool
  payment_date : Option ℕ
  deriving DecidableEq, Repr

/-- Row created for an entry with no existing row (payroll.py lines
2975–3005): note `salary_for_present_days` receives the entry's
`gross_salary` and the stored `gross_salary` is
`gross_salary + ot_charges - late_deduction`, exactly as the source
computes them. -/
def entryToRow (pid : ℕ) (e : SalaryEntry) : CalculatedSalary :=
  { period_id := pid
    employee_id := e.employee_id
    basic_salary := e.base_salary
    employee_tds_rate := e.tds_percentage
    total_working_days := e.working_days
    present_days := e.present_days
    absent_days := e.absent_days
    ot_hours := e.ot_hours
    late_minutes := e.late_minutes
    salary_for_present_days := e.gross_salary
    ot_charges := e.ot_charges
    late_deduction := e.late_deduction
    gross_salary := e.gross_salary + e.ot_charges - e.late_deduction
    tds_amount := e.tds_amount
    salary_after_tds := e.gross_salary + e.ot_charges - e.late_deduction - e.tds_amount
    total_advance_balance := e.total_advance_balance
    advance_deduction_amount := e.advance_deduction
    remaining_advance_balance := e.remaining_balance
    net_payable := e.net_salary
    is_paid := e.is_paid
    payment_date := none }

/-- In-place update of an existing row (payroll.py lines 2945–2973):
every listed field is overwritten from the entry — including `is_paid` —
while `period_id`, `employee_id` and `payment_date` are untouched. -/
def updateRow (cs : CalculatedSalary) (e : SalaryEntry) : CalculatedSalary :=
  { cs with
    basic_salary := e.base_salary
    employee_tds_rate := e.tds_percentage
    total_working_days := e.working_days
    present_days := e.present_days
    absent_days := e.absent_days
    ot_hours := e.ot_hours
    late_minutes := e.late_minutes
    salary_for_present_days := e.gross_salary
    ot_charges := e.ot_charges
    late_deduction := e.late_deduction
    gross_salary := e.gross_salary + e.ot_charges - e.late_deduction
    tds_amount := e.tds_amount
    salary_after_tds := e.gross_salary + e.ot_charges - e.late_deduction - e.tds_amount
    total_advance_balance := e.total_advance_balance
    advance_deduction_amount := e.advance_deduction
    remaining_advance_balance := e.remaining_balance
    net_payable := e.net_salary
    is_paid := e.is_paid }

/-- The employee ids of the incoming payload (`payload_emp_ids`). -/
def payloadIds (entries : List SalaryEntry) : List ℕ :=
  entries.map SalaryEntry.employee_id

/-- Existing rows of the period (`existing_list`). -/
def periodRows (pid : ℕ) (db : List CalculatedSalary) : List CalculatedSalary :=
  db.filter (fun r => r.period_id == pid)

/-- The employee ids present in `existing_map`. -/
def existingIds (pid : ℕ) (db : List CalculatedSalary) : List ℕ :=
  (periodRows pid db).map CalculatedSalary.employee_id

/-- The entry whose field values end up on an updated row: the source
mutates the same mapped object once per matching payload entry, so the
last matching entry wins. -/
def matchEntry (entries : List SalaryEntry) (id : ℕ) : Option SalaryEntry :=
  entries.reverse.find? (fun e => e.employee_id == id)

/-- Rows surviving the delete-missing step (payroll.py lines
3008–3018): rows of other periods, and rows of this period whose
employee appears in the payload. -/
def keptRows (pid : ℕ) (db : List CalculatedSalary) (entries : List SalaryEntry) :
    List CalculatedSalary :=
  db.filter (fun r => !(r.period_id == pid) || (payloadIds entries).contains r.employee_id)

/-- The update applied to one surviving row: rows of this period whose
employee is in the payload are overwritten from the matching entry. -/
def applyEntryUpdates (pid : ℕ) (entries : List SalaryEntry) (r : CalculatedSalary) :
    CalculatedSalary :=
  if r.period_id = pid then
    match matchEntry entries r.employee_id with
    | some e => updateRow r e
    | none => r
  else r

/-- The `bulk_update` image of the surviving rows. -/
def updatedRows (pid : ℕ) (db : List CalculatedSalary) (entries : List SalaryEntry) :
    List CalculatedSalary :=
  (keptRows pid db entries).map (applyEntryUpdates pid entries)

/-- The `bulk_create` rows: one per payload entry whose employee has no
existing row in the period. -/
def createdRows (pid : ℕ) (db : List CalculatedSalary) (entries : List SalaryEntry) :
    List CalculatedSalary :=
  (entries.filter (fun e => !((existingIds pid db).contains e.employee_id))).map
    (entryToRow pid)

/-- `save_payroll_period_direct` (payroll.py lines 2894–3049) as a
database transformation: update matched rows of the period, delete
unmatched rows of the period, create rows for new employees; rows of
other periods pass through. -/
def saveDirectPeriod (pid : ℕ) (db : List CalculatedSalary) (entries : List SalaryEntry) :
    List CalculatedSalary :=
  updatedRows pid db entries ++ createdRows pid db entries

/-- A payroll period record, restricted to the fields relevant to
locking. -/
structure PayrollPeriod where
  period_id : ℕ
  is_locked : Bool
  deriving DecidableEq, Repr

/-- The full direct-save handler: `save_payroll_period_direct` reads the
period only for its identity — it never consults `is_locked`. -/
def saveDirectHandler (p : PayrollPeriod) (db : List CalculatedSalary)
    (entries : List SalaryEntry) : List CalculatedSalary :=
  saveDirectPeriod p.period_id db entries

/-- The lock/paid guard of `PayrollPeriodViewSet.destroy`
(payroll.py lines 93–107), the only place a locked period is
rejected. -/
def destroyPeriodCheck (p : PayrollPeriod) (paidCount : ℕ) : Except String Unit :=
  if p.is_locked then Except.error "Cannot delete locked payroll period"
  else if 0 < paidCount then Except.error "Cannot delete payroll period with paid salaries"
  else Except.ok ()

end Payroll

namespace Payroll

lemma contains_iff_mem {l : List ℕ} {a : ℕ} : l.contains a = true ↔ a ∈ l := by
  constructor
  · intro h
    exact List.elem_iff.mp h
  · intro h
    exact List.elem_iff.mpr h

lemma map_eq_self_of_mem {α : Type} {f : α → α} :
    ∀ {l : List α}, (∀ a ∈ l, f a = a) → l.map f = l
  | [], _ => rfl
  | a :: rest, h => by
    rw [List.map_cons, h a (List.mem_cons_self a rest),
      map_eq_self_of_mem (fun x hx => h x (List.mem_cons_of_mem a hx))]

lemma filter_of_map {α β : Type} (f : α → β) (p : β → Bool) :
    ∀ (l : List α), (l.map f).filter p = (l.filter (fun a => p (f a))).map f
  | [] => rfl
  | a :: rest => by
    rw [List.map_cons, List.filter_cons, List.filter_cons, filter_of_map f p rest]
    by_cases h : p (f a) = true
    · simp only [h, if_pos, List.map_cons]
    · simp only [h]
      simp

lemma countP_of_nodup {l : List ℕ} {id : ℕ} (h : l.Nodup) :
    l.countP (fun x => x == id) = if id ∈ l then 1 else 0 := by
  have hc : l.countP (fun x => x == id) = l.count id := rfl
  rw [hc]
  by_cases hm : id ∈ l
  · rw [if_pos hm]
    exact List.count_eq_one_of_mem h hm
  · rw [if_neg hm]
    exact List.count_eq_zero_of_not_mem hm

lemma countP_zero_of_mem {α : Type} {p : α → Bool} {l : List α}
    (h : ∀ a ∈ l, p a = false) : l.countP p = 0 :=
  List.countP_eq_zero.mpr (fun a ha => by rw [h a ha]; exact Bool.false_ne_true)

/-- `applyEntryUpdates` never changes a row's period. -/
lemma applyEntryUpdates_period_id (pid : ℕ) (entries : List SalaryEntry)
    (r : CalculatedSalary) :
    (applyEntryUpdates pid entries r).period_id = r.period_id := by
  unfold applyEntryUpdates
  by_cases h : r.period_id = pid
  · rw [if_pos h]
    cases matchEntry entries r.employee_id <;> rfl
  · rw [if_neg h]

/-- `applyEntryUpdates` never changes a row's employee id. -/
lemma applyEntryUpdates_employee_id (pid : ℕ) (entries : List SalaryEntry)
    (r : CalculatedSalary) :
    (applyEntryUpdates pid entries r).employee_id = r.employee_id := by
  unfold applyEntryUpdates
  by_cases h : r.period_id = pid
  · rw [if_pos h]
    cases matchEntry entries r.employee_id <;> rfl
  · rw [if_neg h]

/-- A found match is a payload entry for that employee. -/
lemma matchEntry_mem {entries : List SalaryEntry} {id : ℕ} {e : SalaryEntry}
    (h : matchEntry entries id = some e) : e ∈ entries ∧ e.employee_id = id := by
  unfold matchEntry at h
  have h1 := List.mem_of_find?_eq_some h
  have h2 := List.find?_some h
  exact ⟨List.mem_reverse.mp h1, by simpa using h2⟩

/-- An employee present in the payload always has a matching entry. -/
lemma matchEntry_some_of_mem {entries : List SalaryEntry} {id : ℕ}
    (h : id ∈ payloadIds entries) :
    ∃ e, matchEntry entries id = some e := by
  obtain ⟨e, he, hid⟩ := List.mem_map.mp h
  cases hfind : matchEntry entries id with
  | some e' => exact ⟨e', rfl⟩
  | none =>
    exfalso
    unfold matchEntry at hfind
    have := List.find?_eq_none.mp hfind e (List.mem_reverse.mpr he)
    simp [hid] at this

/-- A list whose image under `f` has no duplicates admits no two
members with the same image. -/
lemma nodup_map_inj {α β : Type} {f : α → β} :
    ∀ {l : List α}, (l.map f).Nodup → ∀ {a b : α}, a ∈ l → b ∈ l → f a = f b → a = b
  | [], _, a, _, ha, _, _ => absurd ha (List.not_mem_nil a)
  | c :: rest, h, a, b, ha, hb, hf => by
    have h' := List.nodup_cons.mp (by rw [List.map_cons] at h; exact h)
    rcases List.mem_cons.mp ha with rfl | ha' <;> rcases List.mem_cons.mp hb with rfl | hb'
    · rfl
    · exact absurd (by rw [hf]; exact List.mem_map_of_mem f hb') h'.1
    · exact absurd (by rw [← hf]; exact List.mem_map_of_mem f ha') h'.1
    · exact nodup_map_inj h'.2 ha' hb' hf

/-- Distinct payload ids make the payload entry of an employee unique. -/
lemma payload_inj {entries : List SalaryEntry} (h : (payloadIds entries).Nodup)
    {e1 e2 : SalaryEntry} (h1 : e1 ∈ entries) (h2 : e2 ∈ entries)
    (he : e1.employee_id = e2.employee_id) : e1 = e2 :=
  nodup_map_inj h h1 h2 he

end Payroll

namespace Payroll

/-- Rows of other periods pass through the direct save untouched. -/
lemma saveDirect_other_rows (pid : ℕ) (db : List CalculatedSalary)
    (entries : List SalaryEntry) :
    (saveDirectPeriod pid db entries).filter (fun r => !(r.period_id == pid))
      = db.filter (fun r => !(r.period_id == pid)) := by
  unfold saveDirectPeriod
  rw [List.filter_append]
  have hcre : (createdRows pid db entries).filter (fun r => !(r.period_id == pid)) = [] := by
    apply List.filter_eq_nil_iff.mpr
    intro r hr
    obtain ⟨e, _, rfl⟩ := List.mem_map.mp hr
    simp [entryToRow]
  rw [hcre, List.append_nil]
  unfold updatedRows
  rw [filter_of_map]
  have h1 : (keptRows pid db entries).filter
        (fun r => !((applyEntryUpdates pid entries r).period_id == pid))
      = (keptRows pid db entries).filter (fun r => !(r.period_id == pid)) := by
    apply List.filter_congr
    intro r _
    rw [applyEntryUpdates_period_id]
  rw [h1]
  have h2 : ∀ r ∈ (keptRows pid db entries).filter (fun r => !(r.period_id == pid)),
      applyEntryUpdates pid entries r = r := by
    intro r hr
    have hq := (List.mem_filter.mp hr).2
    have hne : r.period_id ≠ pid := by
      intro hEq
      rw [hEq] at hq
      simp at hq
    unfold applyEntryUpdates
    rw [if_neg hne]
  rw [map_eq_self_of_mem h2]
  unfold keptRows
  rw [List.filter_filter]
  apply List.filter_congr
  intro r _
  cases h : (r.period_id == pid) <;> simp [h]

end Payroll

namespace Payroll

lemma countP_congr_mem {α : Type} {p q : α → Bool} :
    ∀ {l : List α}, (∀ a ∈ l, p a = q a) → l.countP p = l.countP q
  | [], _ => rfl
  | a :: rest, h => by
    rw [List.countP_cons, List.countP_cons, h a (List.mem_cons_self a rest),
      countP_congr_mem (fun x hx => h x (List.mem_cons_of_mem a hx))]

/-- Counting rows of the period for one employee in the whole table
equals counting that employee among the period's existing ids. -/
lemma countP_period_employee (pid : ℕ) (db : List CalculatedSalary) (id : ℕ) :
    db.countP (fun r => r.period_id == pid && r.employee_id == id)
      = (existingIds pid db).countP (fun x => x == id) := by
  unfold existingIds periodRows
  rw [List.countP_map, List.countP_filter]
  apply countP_congr_mem
  intro r _
  cases h1 : (r.period_id == pid) <;> cases h2 : (r.employee_id == id) <;>
    simp [h1, h2]

/-- Count of matching rows among the updated rows. -/
lemma updatedRows_count (pid : ℕ) (db : List CalculatedSalary)
    (entries : List SalaryEntry) (hdb : (existingIds pid db).Nodup) (id : ℕ) :
    (updatedRows pid db entries).countP
        (fun r => r.period_id == pid && r.employee_id == id)
      = if id ∈ payloadIds entries then
          (if id ∈ existingIds pid db then 1 else 0)
        else 0 := by
  unfold updatedRows
  rw [List.countP_map]
  have hcomp : (keptRows pid db entries).countP
        ((fun r => r.period_id == pid && r.employee_id == id) ∘ applyEntryUpdates pid entries)
      = (keptRows pid db entries).countP
        (fun r => r.period_id == pid && r.employee_id == id) := by
    apply countP_congr_mem
    intro r _
    show ((applyEntryUpdates pid entries r).period_id == pid
        && ((applyEntryUpdates pid entries r).employee_id == id)) = _
    rw [applyEntryUpdates_period_id, applyEntryUpdates_employee_id]
  rw [hcomp]
  unfold keptRows
  rw [List.countP_filter]
  by_cases hp : id ∈ payloadIds entries
  · have hpt : (payloadIds entries).contains id = true := contains_iff_mem.mpr hp
    have hpoint : ∀ r ∈ db, ((r.period_id == pid && r.employee_id == id)
        && (!(r.period_id == pid) || (payloadIds entries).contains r.employee_id))
        = (r.period_id == pid && r.employee_id == id) := by
      intro r _
      by_cases h1 : r.period_id = pid
      · by_cases h2 : r.employee_id = id
        · have hb1 : (r.period_id == pid) = true := beq_iff_eq.mpr h1
          have hb2 : (r.employee_id == id) = true := beq_iff_eq.mpr h2
          rw [hb1, hb2, h2, hpt]
          rfl
        · have hb2 : (r.employee_id == id) = false := beq_eq_false_iff_ne.mpr h2
          rw [hb2]
          simp
      · have hb1 : (r.period_id == pid) = false := beq_eq_false_iff_ne.mpr h1
        rw [hb1]
        simp
    rw [countP_congr_mem hpoint, countP_period_employee, countP_of_nodup hdb, if_pos hp]
  · rw [if_neg hp]
    apply countP_zero_of_mem
    intro r _
    by_cases h2 : r.employee_id = id
    · have hb2 : (r.employee_id == id) = true := beq_iff_eq.mpr h2
      have hcf : (payloadIds entries).contains r.employee_id = false := by
        rw [h2]
        cases hc : (payloadIds entries).contains id
        · rfl
        · exact absurd (contains_iff_mem.mp hc) hp
      cases h1 : (r.period_id == pid)
      · simp
      · rw [hb2, hcf]
        rfl
    · have hb2 : (r.employee_id == id) = false := beq_eq_false_iff_ne.mpr h2
      rw [hb2]
      simp

/-- Count of matching rows among the created rows. -/
lemma createdRows_count (pid : ℕ) (db : List CalculatedSalary)
    (entries : List SalaryEntry) (hes : (payloadIds entries).Nodup) (id : ℕ) :
    (createdRows pid db entries).countP
        (fun r => r.period_id == pid && r.employee_id == id)
      = if id ∈ existingIds pid db then 0
        else (if id ∈ payloadIds entries then 1 else 0) := by
  unfold createdRows
  rw [List.countP_map, List.countP_filter]
  by_cases hex : id ∈ existingIds pid db
  · rw [if_pos hex]
    apply countP_zero_of_mem
    intro e _
    show (((pid == pid) && (e.employee_id == id))
        && !((existingIds pid db).contains e.employee_id)) = false
    by_cases h2 : e.employee_id = id
    · have hct : (existingIds pid db).contains e.employee_id = true := by
        rw [h2]
        exact contains_iff_mem.mpr hex
      rw [hct]
      simp
    · have hb2 : (e.employee_id == id) = false := beq_eq_false_iff_ne.mpr h2
      rw [hb2]
      simp
  · rw [if_neg hex]
    have hpoint : ∀ e ∈ entries,
        ((((entryToRow pid e).period_id == pid) && ((entryToRow pid e).employee_id == id))
          && !((existingIds pid db).contains e.employee_id)) = (e.employee_id == id) := by
      intro e _
      show (((pid == pid) && (e.employee_id == id))
          && !((existingIds pid db).contains e.employee_id)) = (e.employee_id == id)
      by_cases h2 : e.employee_id = id
      · have hb2 : (e.employee_id == id) = true := beq_iff_eq.mpr h2
        have hcf : (existingIds pid db).contains e.employee_id = false := by
          rw [h2]
          cases hc : (existingIds pid db).contains id
          · rfl
          · exact absurd (contains_iff_mem.mp hc) hex
        rw [hb2, hcf]
        simp
      · have hb2 : (e.employee_id == id) = false := beq_eq_false_iff_ne.mpr h2
        rw [hb2]
        simp
    refine Eq.trans (countP_congr_mem (q := fun e => e.employee_id == id) ?_) ?_
    · intro e he
      exact hpoint e he
    · have hpl : entries.countP (fun e => e.employee_id == id)
          = (payloadIds entries).countP (fun x => x == id) := by
        unfold payloadIds
        rw [List.countP_map]
        rfl
      rw [hpl, countP_of_nodup hes]

end Payroll

namespace Payroll

/-- Every saved row of the period carries the field values of its
payload entry. -/
lemma saveDirect_fields (pid : ℕ) (db : List CalculatedSalary)
    (entries : List SalaryEntry) (hes : (payloadIds entries).Nodup) :
    ∀ r ∈ saveDirectPeriod pid db entries, r.period_id = pid →
      ∀ e ∈ entries, e.employee_id = r.employee_id →
        r.net_payable = e.net_salary ∧ r.is_paid = e.is_paid
          ∧ r.gross_salary = e.gross_salary + e.ot_charges - e.late_deduction := by
  intro r hr hper e he hemp
  rcases List.mem_append.mp hr with hu | hc
  · obtain ⟨k, hk, rfl⟩ := List.mem_map.mp hu
    have hkmem := List.mem_filter.mp hk
    by_cases hkp : k.period_id = pid
    · have hbeq : (k.period_id == pid) = true := beq_iff_eq.mpr hkp
      have hcond := hkmem.2
      rw [hbeq] at hcond
      simp only [Bool.not_true, Bool.false_or] at hcond
      have hcontains : k.employee_id ∈ payloadIds entries := contains_iff_mem.mp hcond
      obtain ⟨e', he'⟩ := matchEntry_some_of_mem hcontains
      have hprops := matchEntry_mem he'
      have hr_eq : applyEntryUpdates pid entries k = updateRow k e' := by
        unfold applyEntryUpdates
        rw [if_pos hkp, he']
      rw [hr_eq] at hemp ⊢
      have hke : e = e' := by
        apply payload_inj hes he hprops.1
        rw [hemp]
        exact hprops.2.symm
      subst hke
      exact ⟨rfl, rfl, rfl⟩
    · have hid : applyEntryUpdates pid entries k = k := by
        unfold applyEntryUpdates
        rw [if_neg hkp]
      rw [hid] at hper
      exact absurd hper hkp
  · obtain ⟨e', he', rfl⟩ := List.mem_map.mp hc
    have hmem : e' ∈ entries := List.mem_of_mem_filter he'
    have hke : e = e' := by
      apply payload_inj hes he hmem
      exact hemp
    subst hke
    exact ⟨rfl, rfl, rfl⟩

/-- C4: direct save of a payroll period reconciles the period's rows
with the payload — rows of other periods are untouched; after the save
the period holds exactly one row per payload employee and none for an
employee absent from the payload (matched rows updated, new employees
created, missing employees deleted); and every saved row of the period
carries the field values of its payload entry. -/
theorem save_direct_reconciliation (pid : ℕ) (db : List CalculatedSalary)
    (entries : List SalaryEntry)
    (hdb : (existingIds pid db).Nodup) (hes : (payloadIds entries).Nodup) :
    (saveDirectPeriod pid db entries).filter (fun r => !(r.period_id == pid))
        = db.filter (fun r => !(r.period_id == pid))
    ∧ (∀ id : ℕ,
        (saveDirectPeriod pid db entries).countP
            (fun r => r.period_id == pid && r.employee_id == id)
          = if id ∈ payloadIds entries then 1 else 0)
    ∧ (∀ r ∈ saveDirectPeriod pid db entries, r.period_id = pid →
        ∀ e ∈ entries, e.employee_id = r.employee_id →
          r.net_payable = e.net_salary ∧ r.is_paid = e.is_paid
            ∧ r.gross_salary = e.gross_salary + e.ot_charges - e.late_deduction) := by
  refine ⟨saveDirect_other_rows pid db entries, ?_, saveDirect_fields pid db entries hes⟩
  intro id
  unfold saveDirectPeriod
  rw [List.countP_append]
  have hu := updatedRows_count pid db entries hdb id
  have hc := createdRows_count pid db entries hes id
  unfold saveDirectPeriod at *
  rw [hu, hc]
  by_cases h1 : id ∈ payloadIds entries <;> by_cases h2 : id ∈ existingIds pid db <;>
    simp [h1, h2]

end Payroll

namespace Payroll

/-- Test fixture: a payload entry that only sets the employee id, the
net salary and the paid flag (all other numeric fields zero). -/
def mkEntry (empId : ℕ) (net : ℚ) (paid : Bool) : SalaryEntry :=
  { employee_id := empId, base_salary := 0, working_days := 0, present_days := 0,
    absent_days := 0, ot_hours := 0, late_minutes := 0, gross_salary := 0, ot_charges := 0,
    late_deduction := 0, tds_amount := 0, total_advance_balance := 0, advance_deduction := 0,
    remaining_balance := 0, net_salary := net, tds_percentage := 0, is_paid := paid }

/-- Test fixture: a stored row with the given period, employee, net pay
and paid flag (all other numeric fields zero). -/
def mkRow (pid empId : ℕ) (net : ℚ) (paid : Bool) : CalculatedSalary :=
  { period_id := pid, employee_id := empId, basic_salary := 0, employee_tds_rate := 0,
    total_working_days := 0, present_days := 0, absent_days := 0, ot_hours := 0,
    late_minutes := 0, salary_for_present_days := 0, ot_charges := 0, late_deduction := 0,
    gross_salary := 0, tds_amount := 0, salary_after_tds := 0, total_advance_balance := 0,
    advance_deduction_amount := 0, remaining_advance_balance := 0, net_payable := net,
    is_paid := paid, payment_date := none }

/-- The stored rows of the claim's scenario: employees A (id 1) and B
(id 2) in period 1. -/
def exDb : List CalculatedSalary := [mkRow 1 1 10 false, mkRow 1 2 20 false]

/-- The re-save payload of the claim's scenario: only employee A. -/
def exEntryA : SalaryEntry := mkEntry 1 40 false

/-- Witness for C4 at the claim's scenario: after re-saving period 1
(which held rows for employees 1 and 2) with a payload containing only
employee 1, the period has exactly one row for employee 1 and no row for
employee 2. -/
theorem save_direct_reconciliation_witness :
    (saveDirectPeriod 1 exDb [exEntryA]).countP
        (fun r => r.period_id == 1 && r.employee_id == 1) = 1
    ∧ (saveDirectPeriod 1 exDb [exEntryA]).countP
        (fun r => r.period_id == 1 && r.employee_id == 2) = 0 := by
  have h := (save_direct_reconciliation 1 exDb [exEntryA] (by decide) (by decide)).2.1
  have h1 := h 1
  have h2 := h 2
  constructor
  · rw [h1, if_pos (by decide)]
  · rw [h2, if_neg (by decide)]

/-- The locked period of the C8 counterexample. -/
def lockedPeriodEx : PayrollPeriod := { period_id := 1, is_locked := true }

/-- A stored row of the locked period. -/
def lockedRowEx : CalculatedSalary := mkRow 1 3 100 false

/-- An edit payload for the locked period. -/
def lockedEntryEx : SalaryEntry := mkEntry 3 50 false

/-- C8 counterexample: a direct save against a locked period is NOT
rejected — `save_payroll_period_direct` contains no `is_locked` check,
so the request succeeds and overwrites the period's row (net pay 100
becomes 50). -/
theorem locked_period_edit_not_rejected :
    lockedPeriodEx.is_locked = true
    ∧ saveDirectHandler lockedPeriodEx [lockedRowEx] [lockedEntryEx]
        = [updateRow lockedRowEx lockedEntryEx]
    ∧ (updateRow lockedRowEx lockedEntryEx).net_payable = 50
    ∧ lockedRowEx.net_payable = 100
    ∧ saveDirectHandler lockedPeriodEx [lockedRowEx] [lockedEntryEx] ≠ [lockedRowEx] := by
  refine ⟨rfl, rfl, rfl, rfl, ?_⟩
  intro hEq
  have h2 : saveDirectHandler lockedPeriodEx [lockedRowEx] [lockedEntryEx]
      = [updateRow lockedRowEx lockedEntryEx] := rfl
  rw [h2] at hEq
  injection hEq with h3 _
  have h4 : (50 : ℚ) = 100 := congrArg CalculatedSalary.net_payable h3
  exact absurd h4 (by norm_num)

/-- C8 amended: the direct-save handler is entirely independent of the
period's `is_locked` flag (it never reads it); the only operation a lock
blocks is period deletion, whose guard rejects a locked period with a
state-conflict error. -/
theorem save_direct_ignores_lock (p : PayrollPeriod) (b : Bool)
    (db : List CalculatedSalary) (entries : List SalaryEntry) (n : ℕ) :
    saveDirectHandler { period_id := p.period_id, is_locked := b } db entries
      = saveDirectHandler p db entries
    ∧ (p.is_locked = true →
        destroyPeriodCheck p n = Except.error "Cannot delete locked payroll period") := by
  constructor
  · rfl
  · intro h
    unfold destroyPeriodCheck
    rw [if_pos h]

/-- Witness for the amended C8: deleting a concrete locked period is
rejected with the state-conflict error. -/
theorem save_direct_ignores_lock_witness :
    destroyPeriodCheck { period_id := 1, is_locked := true } 0
      = Except.error "Cannot delete locked payroll period" :=
  (save_direct_ignores_lock { period_id := 1, is_locked := true } true [] [] 0).2 rfl

/-- A paid stored row for the C9 counterexample. -/
def paidRowEx : CalculatedSalary := mkRow 1 4 100 true

/-- An edit payload overwriting the paid row. -/
def paidEntryEx : SalaryEntry := mkEntry 4 50 false

/-- C9 counterexample: a row with `is_paid = true` is NOT frozen — a
direct save of its period overwrites its fields (net pay 100 becomes 50,
`is_paid` is even reset from the payload). -/
theorem paid_row_overwritten :
    paidRowEx.is_paid = true
    ∧ saveDirectPeriod 1 [paidRowEx] [paidEntryEx] = [updateRow paidRowEx paidEntryEx]
    ∧ (updateRow paidRowEx paidEntryEx).net_payable = 50
    ∧ (updateRow paidRowEx paidEntryEx).is_paid = false
    ∧ paidRowEx.net_payable = 100
    ∧ saveDirectPeriod 1 [paidRowEx] [paidEntryEx] ≠ [paidRowEx] := by
  refine ⟨rfl, rfl, rfl, rfl, rfl, ?_⟩
  intro hEq
  have h2 : saveDirectPeriod 1 [paidRowEx] [paidEntryEx]
      = [updateRow paidRowEx paidEntryEx] := rfl
  rw [h2] at hEq
  injection hEq with h3 _
  have h4 : (50 : ℚ) = 100 := congrArg CalculatedSalary.net_payable h3
  exact absurd h4 (by norm_num)

/-- C9 amended: the direct save pays no attention to the stored
`is_paid` flags — overwriting the paid flag of every row of the period
(by an arbitrary function) does not change the saved result at all:
matched rows are overwritten from their payload entry regardless,
unmatched rows of the period are deleted regardless, and rows of other
periods are untouched. -/
theorem save_direct_no_paid_freeze (pid : ℕ) (db : List CalculatedSalary)
    (entries : List SalaryEntry) (f : CalculatedSalary → Bool) :
    saveDirectPeriod pid
        (db.map (fun r => if r.period_id = pid then { r with is_paid := f r } else r)) entries
      = saveDirectPeriod pid db entries := by
  have hper : ∀ r : CalculatedSalary,
      (if r.period_id = pid then { r with is_paid := f r } else r).period_id
        = r.period_id := by
    intro r
    by_cases h : r.period_id = pid
    · rw [if_pos h]
    · rw [if_neg h]
  have hemp : ∀ r : CalculatedSalary,
      (if r.period_id = pid then { r with is_paid := f r } else r).employee_id
        = r.employee_id := by
    intro r
    by_cases h : r.period_id = pid
    · rw [if_pos h]
    · rw [if_neg h]
  have hkept : keptRows pid
        (db.map (fun r => if r.period_id = pid then { r with is_paid := f r } else r)) entries
      = (keptRows pid db entries).map
          (fun r => if r.period_id = pid then { r with is_paid := f r } else r) := by
    unfold keptRows
    rw [filter_of_map]
    refine congrArg _ (List.filter_congr ?_)
    intro r _
    rw [hper r, hemp r]
  have hex : existingIds pid
        (db.map (fun r => if r.period_id = pid then { r with is_paid := f r } else r))
      = existingIds pid db := by
    unfold existingIds periodRows
    rw [filter_of_map, List.map_map]
    have h1 : db.filter (fun a =>
          ((if a.period_id = pid then { a with is_paid := f a } else a).period_id == pid))
        = db.filter (fun a => a.period_id == pid) := by
      apply List.filter_congr
      intro r _
      rw [hper r]
    rw [h1]
    apply List.map_congr_left
    intro r _
    show (if r.period_id = pid then { r with is_paid := f r } else r).employee_id
        = r.employee_id
    exact hemp r
  have hupd : updatedRows pid
        (db.map (fun r => if r.period_id = pid then { r with is_paid := f r } else r)) entries
      = updatedRows pid db entries := by
    unfold updatedRows
    rw [hkept, List.map_map]
    apply List.map_congr_left
    intro r hr
    show applyEntryUpdates pid entries
        (if r.period_id = pid then { r with is_paid := f r } else r)
      = applyEntryUpdates pid entries r
    by_cases hkp : r.period_id = pid
    · rw [if_pos hkp]
      have hkmem := List.mem_filter.mp hr
      have hbeq : (r.period_id == pid) = true := beq_iff_eq.mpr hkp
      have hcond := hkmem.2
      rw [hbeq] at hcond
      simp only [Bool.not_true, Bool.false_or] at hcond
      obtain ⟨e, he⟩ := matchEntry_some_of_mem (contains_iff_mem.mp hcond)
      have hlhs : applyEntryUpdates pid entries ({ r with is_paid := f r } : CalculatedSalary)
          = updateRow r e := by
        unfold applyEntryUpdates
        rw [if_pos (show ({ r with is_paid := f r } : CalculatedSalary).period_id = pid
          from hkp)]
        rw [show matchEntry entries ({ r with is_paid := f r } : CalculatedSalary).employee_id
            = some e from he]
        rfl
      have hrhs : applyEntryUpdates pid entries r = updateRow r e := by
        unfold applyEntryUpdates
        rw [if_pos hkp, he]
      rw [hlhs, hrhs]
    · rw [if_neg hkp]
  have hcre : createdRows pid
        (db.map (fun r => if r.period_id = pid then { r with is_paid := f r } else r)) entries
      = createdRows pid db entries := by
    unfold createdRows
    rw [hex]
  unfold saveDirectPeriod
  rw [hupd, hcre]

end Payroll
